import Mathlib

/-!
Verification of the `veml7700` lux-correction core (`src/correction.rs`).

Modelling conventions:
* `f32` arithmetic is modelled by exact real arithmetic over `ℝ`; the quartic
  coefficients and the lookup-table constants are the exact decimal values of
  the source literals.
* The `f32` special value NaN is modelled by `Option ℝ`: `none` is NaN and
  `some v` is the finite value `v`.  `sqrt` and `powf (1/3)` of a negative
  argument produce NaN (`none`), and every arithmetic operation propagates
  `none`, matching IEEE-754 NaN propagation.
* Rust's saturating float-to-`u16` cast (`as u16`) truncates toward zero,
  clamps to `[0, 65535]`, and maps NaN to `0`; it is modelled by `rf_to_u16`.
-/

namespace correction

/-- The four analog gain settings of the sensor (enum `Gain`). -/
inductive Gain where
  | Two
  | One
  | OneQuarter
  | OneEighth
deriving DecidableEq, Repr

/-- The six integration-time settings of the sensor (enum `IntegrationTime`). -/
inductive IntegrationTime where
  | _800ms
  | _400ms
  | _200ms
  | _100ms
  | _50ms
  | _25ms
deriving DecidableEq, Repr

/-- Function `get_lux_raw_conversion_factor` of `correction.rs`: the product of the
per-gain multiplier and the per-integration-time multiplier. -/
noncomputable def get_lux_raw_conversion_factor (it : IntegrationTime) (gain : Gain) : ℝ :=
  let gain_factor : ℝ :=
    match gain with
    | Gain.Two => 1.0
    | Gain.One => 2.0
    | Gain.OneQuarter => 8.0
    | Gain.OneEighth => 16.0
  let it_factor : ℝ :=
    match it with
    | IntegrationTime._800ms => 0.0036
    | IntegrationTime._400ms => 0.0072
    | IntegrationTime._200ms => 0.0144
    | IntegrationTime._100ms => 0.0288
    | IntegrationTime._50ms => 0.0576
    | IntegrationTime._25ms => 0.1152
  gain_factor * it_factor

/-- Correction coefficient `C0` of `correction.rs`. -/
noncomputable def C0 : ℝ := 1.0023
/-- Correction coefficient `C1` of `correction.rs`. -/
noncomputable def C1 : ℝ := 8.1488e-05
/-- Correction coefficient `C2` of `correction.rs`. -/
noncomputable def C2 : ℝ := -9.3924e-09
/-- Correction coefficient `C3` of `correction.rs`. -/
noncomputable def C3 : ℝ := 6.0135e-13

/-- Function `correct_high_lux` of `correction.rs`:
`lux.powf(4.0) * C3 + lux.powf(3.0) * C2 + lux * lux * C1 + lux * C0`. -/
noncomputable def correct_high_lux (lux : ℝ) : ℝ :=
  lux ^ (4 : ℕ) * C3 + lux ^ (3 : ℕ) * C2 + lux * lux * C1 + lux * C0

/-!
The closed-form quartic inverse `inverse_high_lux_correction` repeats a few
large subexpressions verbatim.  We name them once, in one-to-one
correspondence with the source text:

* `qP lux`  is `C1.powf(2.0) - 3.0 * C2 * C0 - 12.0 * C3 * lux`;
* `qS lux`  is `2.0 * C1.powf(3.0) - 9.0 * C2 * C1 * C0 + 27.0 * C3 * C0.powf(2.0)
  - 27.0 * C2.powf(2.0) * lux + 72.0 * C3 * C1 * lux`;
* `qDelta lux` is the radicand `-4.0 * (qP lux).powf(3.0) + (qS lux).powf(2.0)`;
* `cbrt2` is `2.0_f32.powf(1.0 / 3.0)`;
* `qF` is `-(C2.powf(3.0) / C3.powf(3.0)) + (4.0 * C2 * C1) / C3.powf(2.0)
  - (8.0 * C0) / C3`.
-/

/-- Repeated subterm `C1^2 - 3*C2*C0 - 12*C3*lux` of the quartic inverse. -/
noncomputable def qP (lux : ℝ) : ℝ := C1 ^ (2 : ℕ) - 3 * C2 * C0 - 12 * C3 * lux

/-- Repeated subterm
`2*C1^3 - 9*C2*C1*C0 + 27*C3*C0^2 - 27*C2^2*lux + 72*C3*C1*lux`. -/
noncomputable def qS (lux : ℝ) : ℝ :=
  2 * C1 ^ (3 : ℕ) - 9 * C2 * C1 * C0 + 27 * C3 * C0 ^ (2 : ℕ)
    - 27 * C2 ^ (2 : ℕ) * lux + 72 * C3 * C1 * lux

/-- The inner square-root radicand `-4*(qP lux)^3 + (qS lux)^2`. -/
noncomputable def qDelta (lux : ℝ) : ℝ := -4 * qP lux ^ (3 : ℕ) + qS lux ^ (2 : ℕ)

/-- Constant `2.0_f32.powf(1.0 / 3.0)`, the cube root of two. -/
noncomputable def cbrt2 : ℝ := (2 : ℝ) ^ ((1 : ℝ) / 3)

/-- Constant subterm `-(C2^3/C3^3) + 4*C2*C1/C3^2 - 8*C0/C3`. -/
noncomputable def qF : ℝ :=
  -(C2 ^ (3 : ℕ) / C3 ^ (3 : ℕ)) + 4 * C2 * C1 / C3 ^ (2 : ℕ) - 8 * C0 / C3

/-- The repeated cube-root argument
`qS lux + sqrt (qDelta lux)` of the quartic inverse. -/
noncomputable def bigT (lux : ℝ) : ℝ := qS lux + Real.sqrt (qDelta lux)

/-- The repeated cube root `(bigT lux).powf(1.0/3.0)`. -/
noncomputable def uRoot (lux : ℝ) : ℝ := bigT lux ^ ((1 : ℝ) / 3)

/-- The two repeated middle terms of both outer radicands:
`(cbrt2 * qP lux) / (3*C3*uRoot lux) + uRoot lux / (3*cbrt2*C3)`. -/
noncomputable def wTerm (lux : ℝ) : ℝ :=
  cbrt2 * qP lux / (3 * C3 * uRoot lux) + uRoot lux / (3 * cbrt2 * C3)

/-- The first outer square-root radicand of the quartic inverse. -/
noncomputable def rad1 (lux : ℝ) : ℝ :=
  C2 ^ (2 : ℕ) / (4 * C3 ^ (2 : ℕ)) - 2 * C1 / (3 * C3) + wTerm lux

/-- Square root of the first outer radicand. -/
noncomputable def sVal (lux : ℝ) : ℝ := Real.sqrt (rad1 lux)

/-- The second outer square-root radicand of the quartic inverse. -/
noncomputable def rad2 (lux : ℝ) : ℝ :=
  C2 ^ (2 : ℕ) / (2 * C3 ^ (2 : ℕ)) - 4 * C1 / (3 * C3) - wTerm lux
    - qF / (4 * sVal lux)

/-- Idealised (real-valued) reading of `inverse_high_lux_correction`:
`-C2/(4*C3) - sqrt(rad1 lux)/2 + sqrt(rad2 lux)/2`, with `Real.sqrt`
(which is junk-valued on negative arguments; the NaN-aware model below is
authoritative off the valid domain). -/
noncomputable def inverse_high_lux_correctionR (lux : ℝ) : ℝ :=
  -C2 / (4 * C3) - sVal lux / 2 + Real.sqrt (rad2 lux) / 2

/-- Model of `f32::sqrt`: NaN on negative input, modelled as `none`. -/
noncomputable def f32sqrt (x : ℝ) : Option ℝ :=
  if x < 0 then none else some (Real.sqrt x)

/-- Model of `f32::powf(1.0/3.0)`: NaN for a negative base (non-integer exponent),
modelled as `none`. -/
noncomputable def f32cbrt (x : ℝ) : Option ℝ :=
  if x < 0 then none else some (x ^ ((1 : ℝ) / 3))

/-- Function `inverse_high_lux_correction` of `correction.rs`, NaN-aware: evaluates
the closed-form root of the quartic, with every square root and cube root
turning a negative radicand into NaN (`none`), which then propagates to the
result.  The `let`-bound names correspond to the repeated source
subexpressions documented above. -/
noncomputable def inverse_high_lux_correction (lux : ℝ) : Option ℝ :=
  (f32sqrt (qDelta lux)).bind fun dR =>
    (f32cbrt (qS lux + dR)).bind fun u =>
      let w := cbrt2 * qP lux / (3 * C3 * u) + u / (3 * cbrt2 * C3)
      (f32sqrt (C2 ^ (2 : ℕ) / (4 * C3 ^ (2 : ℕ)) - 2 * C1 / (3 * C3) + w)).bind
        fun s =>
          (f32sqrt (C2 ^ (2 : ℕ) / (2 * C3 ^ (2 : ℕ)) - 4 * C1 / (3 * C3) - w
              - qF / (4 * s))).bind
            fun t => some (-C2 / (4 * C3) - s / 2 + t / 2)

/-- NaN-propagating division on the `Option ℝ` float model. -/
noncomputable def rfDiv (x y : Option ℝ) : Option ℝ := x.bind fun a => y.map fun b => a / b

/-- The comparison `lux > 1000.0`: false when `lux` is NaN (IEEE-754). -/
noncomputable def rfGt1000 : Option ℝ → Prop
  | none => False
  | some v => 1000 < v

/-- Rust's saturating `f32 as u16` cast: truncation toward zero, clamped to
`[0, 65535]`, NaN to `0`. -/
noncomputable def rf_to_u16 : Option ℝ → ℕ
  | none => 0
  | some v => min ⌊v⌋₊ 65535

open Classical in
/-- The float ratio computed by `calculate_raw_threshold_value` just before
the final `as u16` cast: corrected lux (when gain is 1/4 or 1/8 and
`lux > 1000`) or plain lux, divided by the conversion factor. -/
noncomputable def threshold_ratio (it : IntegrationTime) (gain : Gain)
    (lux : Option ℝ) : Option ℝ :=
  let factor := get_lux_raw_conversion_factor it gain
  if (gain = Gain.OneQuarter ∨ gain = Gain.OneEighth) ∧ rfGt1000 lux then
    rfDiv (lux.bind inverse_high_lux_correction) (some factor)
  else
    rfDiv lux (some factor)

/-- Function `calculate_raw_threshold_value` of `correction.rs`. -/
noncomputable def calculate_raw_threshold_value (it : IntegrationTime)
    (gain : Gain) (lux : Option ℝ) : ℕ :=
  rf_to_u16 (threshold_ratio it gain lux)

/-- Gain multiplier table as documented in the specification. -/
noncomputable def spec_gain_multiplier : Gain → ℝ
  | Gain.Two => 1.0
  | Gain.One => 2.0
  | Gain.OneQuarter => 8.0
  | Gain.OneEighth => 16.0

/-- Integration-time multiplier table as documented in the specification. -/
noncomputable def spec_it_multiplier : IntegrationTime → ℝ
  | IntegrationTime._800ms => 0.0036
  | IntegrationTime._400ms => 0.0072
  | IntegrationTime._200ms => 0.0144
  | IntegrationTime._100ms => 0.0288
  | IntegrationTime._50ms => 0.0576
  | IntegrationTime._25ms => 0.1152


/-! ### The resolvent-cubic layer of the quartic inverse -/

/-- Shift constant `2*C1 - 3*C2^2/(4*C3)`: the value of the resolvent-cubic
root at which the first outer radicand `rad1` vanishes. -/
noncomputable def tauC : ℝ := 2 * C1 - 3 * C2 ^ (2 : ℕ) / (4 * C3)

/-- Depressed-quartic coefficient `p` of `x^4 + (C2/C3)x^3 + ... - y/C3`. -/
noncomputable def pQ : ℝ := C1 / C3 - 3 * C2 ^ (2 : ℕ) / (8 * C3 ^ (2 : ℕ))

/-- Depressed-quartic coefficient `q`. -/
noncomputable def qQ : ℝ :=
  (C2 ^ (3 : ℕ) - 4 * C3 * C2 * C1 + 8 * C3 ^ (2 : ℕ) * C0) / (8 * C3 ^ (3 : ℕ))

/-- Depressed-quartic coefficient `r` (depends on the target lux `y`). -/
noncomputable def rQ (y : ℝ) : ℝ :=
  (-3 * C2 ^ (4 : ℕ) - 256 * C3 ^ (3 : ℕ) * y - 64 * C3 ^ (2 : ℕ) * C2 * C0
      + 16 * C3 * C2 ^ (2 : ℕ) * C1) / (256 * C3 ^ (4 : ℕ))

/-- The real root of the resolvent cubic `W^3 = 3*(qP y)*W + qS y` extracted
by Cardano's formula inside the quartic inverse; `wTerm y = Wv y / (3*C3)`. -/
noncomputable def Wv (y : ℝ) : ℝ := cbrt2 * qP y / uRoot y + uRoot y / cbrt2

/-! ### Basic unfolding lemmas for the threshold entry point -/

lemma threshold_ratio_corrected (it : IntegrationTime) (gain : Gain) (x : ℝ)
    (hg : gain = Gain.OneQuarter ∨ gain = Gain.OneEighth) (hx : 1000 < x) :
    threshold_ratio it gain (some x)
      = rfDiv (inverse_high_lux_correction x)
          (some (get_lux_raw_conversion_factor it gain)) := by
  unfold threshold_ratio
  rw [if_pos ⟨hg, by simpa [rfGt1000] using hx⟩]
  rfl

lemma threshold_ratio_plain (it : IntegrationTime) (gain : Gain)
    (lux : Option ℝ)
    (h : ¬((gain = Gain.OneQuarter ∨ gain = Gain.OneEighth) ∧ rfGt1000 lux)) :
    threshold_ratio it gain lux
      = rfDiv lux (some (get_lux_raw_conversion_factor it gain)) := by
  unfold threshold_ratio
  rw [if_neg h]

/-! ### Claims about the conversion-factor table -/

/-- C4: for every one of the 24 (gain, integration-time) pairs,
`get_lux_raw_conversion_factor` is exactly the product of the documented gain
multiplier (Two → 1.0, One → 2.0, OneQuarter → 8.0, OneEighth → 16.0) and the
documented integration-time multiplier (800ms → 0.0036, 400ms → 0.0072,
200ms → 0.0144, 100ms → 0.0288, 50ms → 0.0576, 25ms → 0.1152). -/
theorem claim_C4 :
    ∀ (it : IntegrationTime) (g : Gain),
      get_lux_raw_conversion_factor it g
        = spec_gain_multiplier g * spec_it_multiplier it := by
  intro it g
  cases it <;> cases g <;>
    norm_num [get_lux_raw_conversion_factor, spec_gain_multiplier,
      spec_it_multiplier]

/-- C9: the conversion factor is strictly positive for every valid
(gain, integration-time) pair. -/
theorem claim_C9 :
    ∀ (it : IntegrationTime) (g : Gain),
      0 < get_lux_raw_conversion_factor it g := by
  intro it g
  cases it <;> cases g <;>
    norm_num [get_lux_raw_conversion_factor]

/-- C10: exact doubling structure of the lookup table: each halving of the
integration time exactly doubles the conversion factor, gain One doubles
gain Two, and gain OneEighth doubles gain OneQuarter.  (In the exact-real
model the table constants are the decimal literals; the corresponding `f32`
equalities also hold exactly because each step scales by a power of two.) -/
theorem claim_C10 :
    (∀ g, get_lux_raw_conversion_factor IntegrationTime._400ms g
        = 2 * get_lux_raw_conversion_factor IntegrationTime._800ms g)
    ∧ (∀ g, get_lux_raw_conversion_factor IntegrationTime._200ms g
        = 2 * get_lux_raw_conversion_factor IntegrationTime._400ms g)
    ∧ (∀ g, get_lux_raw_conversion_factor IntegrationTime._100ms g
        = 2 * get_lux_raw_conversion_factor IntegrationTime._200ms g)
    ∧ (∀ g, get_lux_raw_conversion_factor IntegrationTime._50ms g
        = 2 * get_lux_raw_conversion_factor IntegrationTime._100ms g)
    ∧ (∀ g, get_lux_raw_conversion_factor IntegrationTime._25ms g
        = 2 * get_lux_raw_conversion_factor IntegrationTime._50ms g)
    ∧ (∀ it, get_lux_raw_conversion_factor it Gain.One
        = 2 * get_lux_raw_conversion_factor it Gain.Two)
    ∧ (∀ it, get_lux_raw_conversion_factor it Gain.OneEighth
        = 2 * get_lux_raw_conversion_factor it Gain.OneQuarter) := by
  refine ⟨?_, ?_, ?_, ?_, ?_, ?_, ?_⟩ <;>
    intro v <;> cases v <;>
    norm_num [get_lux_raw_conversion_factor]

/-- C5: `correct_high_lux` is exactly the quartic
`C3·x⁴ + C2·x³ + C1·x² + C0·x` with the fixed constants
C0 = 1.0023, C1 = 8.1488e-5, C2 = -9.3924e-9, C3 = 6.0135e-13. -/
theorem claim_C5 :
    ∀ x : ℝ,
      correct_high_lux x
        = 6.0135e-13 * x ^ (4 : ℕ) + (-9.3924e-09) * x ^ (3 : ℕ)
            + 8.1488e-05 * x ^ (2 : ℕ) + 1.0023 * x := by
  intro x
  unfold correct_high_lux C0 C1 C2 C3
  ring

/-! ### Claims about branch selection and the final cast -/

/-- C1: `calculate_raw_threshold_value` routes its input through the inverse
high-lux correction exactly when the gain is OneQuarter or OneEighth and the
lux argument strictly exceeds 1000; at lux = 1000 no correction is applied
for any gain, and at lux = 1000.0001 the correction is applied for gains
OneQuarter and OneEighth. -/
theorem claim_C1 :
    (∀ (it : IntegrationTime) (g : Gain) (x : ℝ),
        (g = Gain.OneQuarter ∨ g = Gain.OneEighth) → 1000 < x →
        calculate_raw_threshold_value it g (some x)
          = rf_to_u16 (rfDiv (inverse_high_lux_correction x)
              (some (get_lux_raw_conversion_factor it g))))
    ∧ (∀ (it : IntegrationTime) (g : Gain) (x : ℝ),
        ¬((g = Gain.OneQuarter ∨ g = Gain.OneEighth) ∧ 1000 < x) →
        calculate_raw_threshold_value it g (some x)
          = rf_to_u16 (some (x / get_lux_raw_conversion_factor it g)))
    ∧ (∀ (it : IntegrationTime) (g : Gain),
        calculate_raw_threshold_value it g (some 1000)
          = rf_to_u16 (some (1000 / get_lux_raw_conversion_factor it g)))
    ∧ (∀ it : IntegrationTime,
        calculate_raw_threshold_value it Gain.OneQuarter (some 1000.0001)
          = rf_to_u16 (rfDiv (inverse_high_lux_correction 1000.0001)
              (some (get_lux_raw_conversion_factor it Gain.OneQuarter)))
        ∧ calculate_raw_threshold_value it Gain.OneEighth (some 1000.0001)
          = rf_to_u16 (rfDiv (inverse_high_lux_correction 1000.0001)
              (some (get_lux_raw_conversion_factor it Gain.OneEighth)))) := by
  refine ⟨?_, ?_, ?_, ?_⟩
  · intro it g x hg hx
    unfold calculate_raw_threshold_value
    rw [threshold_ratio_corrected it g x hg hx]
  · intro it g x h
    unfold calculate_raw_threshold_value
    rw [threshold_ratio_plain it g (some x)
      (by simpa [rfGt1000] using h)]
    rfl
  · intro it g
    unfold calculate_raw_threshold_value
    rw [threshold_ratio_plain it g (some 1000)
      (by simp [rfGt1000])]
    rfl
  · intro it
    constructor
    · unfold calculate_raw_threshold_value
      rw [threshold_ratio_corrected it Gain.OneQuarter 1000.0001
        (Or.inl rfl) (by norm_num)]
    · unfold calculate_raw_threshold_value
      rw [threshold_ratio_corrected it Gain.OneEighth 1000.0001
        (Or.inr rfl) (by norm_num)]

/-- Witness for C1 at concrete inputs. -/
theorem claim_C1_witness :
    calculate_raw_threshold_value IntegrationTime._800ms Gain.OneEighth
        (some 2000)
      = rf_to_u16 (rfDiv (inverse_high_lux_correction 2000)
          (some (get_lux_raw_conversion_factor IntegrationTime._800ms
            Gain.OneEighth)))
    ∧ calculate_raw_threshold_value IntegrationTime._800ms Gain.Two
        (some 2000)
      = rf_to_u16 (some (2000 / get_lux_raw_conversion_factor
          IntegrationTime._800ms Gain.Two)) := by
  constructor
  · exact claim_C1.1 _ _ _ (Or.inr rfl) (by norm_num)
  · exact claim_C1.2.1 _ _ _ (by rintro ⟨h | h, -⟩ <;> exact Gain.noConfusion h)

/-- C6: the final conversion to the 16-bit raw count saturates: a ratio above
65535 yields 65535, a negative or NaN ratio yields 0, and the result never
exceeds 65535 (no wrap, no panic). -/
theorem claim_C6 :
    (∀ (it : IntegrationTime) (g : Gain) (lux : Option ℝ) (v : ℝ),
        threshold_ratio it g lux = some v → 65535 < v →
        calculate_raw_threshold_value it g lux = 65535)
    ∧ (∀ (it : IntegrationTime) (g : Gain) (lux : Option ℝ) (v : ℝ),
        threshold_ratio it g lux = some v → v < 0 →
        calculate_raw_threshold_value it g lux = 0)
    ∧ (∀ (it : IntegrationTime) (g : Gain) (lux : Option ℝ),
        threshold_ratio it g lux = none →
        calculate_raw_threshold_value it g lux = 0)
    ∧ (∀ (it : IntegrationTime) (g : Gain) (lux : Option ℝ),
        calculate_raw_threshold_value it g lux ≤ 65535) := by
  refine ⟨?_, ?_, ?_, ?_⟩
  · intro it g lux v hval hv
    unfold calculate_raw_threshold_value
    rw [hval]
    have h65535 : (65535 : ℕ) ≤ ⌊v⌋₊ := by
      rw [Nat.le_floor_iff (by linarith : (0:ℝ) ≤ v)]
      push_cast
      linarith
    simp [rf_to_u16, min_eq_right h65535]
  · intro it g lux v hval hv
    unfold calculate_raw_threshold_value
    rw [hval]
    have h0 : ⌊v⌋₊ = 0 := Nat.floor_of_nonpos hv.le
    simp [rf_to_u16, h0]
  · intro it g lux hval
    unfold calculate_raw_threshold_value
    rw [hval]
    rfl
  · intro it g lux
    unfold calculate_raw_threshold_value
    cases threshold_ratio it g lux with
    | none => simp [rf_to_u16]
    | some v => simp [rf_to_u16]

/-- Witness for C6 at concrete inputs: a huge ratio saturates to 65535, a
negative ratio yields 0, and a NaN lux input yields 0. -/
theorem claim_C6_witness :
    calculate_raw_threshold_value IntegrationTime._800ms Gain.Two
        (some 1000000000) = 65535
    ∧ calculate_raw_threshold_value IntegrationTime._800ms Gain.Two
        (some (-5)) = 0
    ∧ calculate_raw_threshold_value IntegrationTime._800ms Gain.Two none
        = 0 := by
  refine ⟨?_, ?_, ?_⟩
  · refine claim_C6.1 _ _ _ (1000000000 / (0.0036 : ℝ)) ?_ (by norm_num)
    rw [threshold_ratio_plain _ _ _
      (by rintro ⟨h | h, -⟩ <;> exact Gain.noConfusion h)]
    simp [rfDiv, get_lux_raw_conversion_factor]
    norm_num
  · refine claim_C6.2.1 _ _ _ ((-5) / (0.0036 : ℝ)) ?_ (by norm_num)
    rw [threshold_ratio_plain _ _ _
      (by rintro ⟨h | h, -⟩ <;> exact Gain.noConfusion h)]
    simp [rfDiv, get_lux_raw_conversion_factor]
    norm_num
  · refine claim_C6.2.2.1 _ _ _ ?_
    rw [threshold_ratio_plain _ _ _ (by rintro ⟨-, h⟩; exact h)]
    rfl

/-- C7: when no correction is applied (lux ≤ 1000), the raw threshold is the
saturated floor of lux divided by the conversion factor (exactly, in the
exact-real model of `f32`). -/
theorem claim_C7 :
    ∀ (it : IntegrationTime) (g : Gain) (x : ℝ), x ≤ 1000 →
      calculate_raw_threshold_value it g (some x)
        = min ⌊x / get_lux_raw_conversion_factor it g⌋₊ 65535 := by
  intro it g x hx
  unfold calculate_raw_threshold_value
  rw [threshold_ratio_plain it g (some x)
    (by rintro ⟨-, h⟩; simp only [rfGt1000] at h; linarith)]
  rfl

/-- Witness for C7 at a concrete input. -/
theorem claim_C7_witness :
    calculate_raw_threshold_value IntegrationTime._800ms Gain.Two (some 36)
      = min ⌊(36 : ℝ) / get_lux_raw_conversion_factor IntegrationTime._800ms
          Gain.Two⌋₊ 65535 :=
  claim_C7 _ _ _ (by norm_num)

lemma C3_pos : (0 : ℝ) < C3 := by unfold C3; norm_num

lemma qS_pos (y : ℝ) (hy : 0 ≤ y) : 0 < qS y := by
  unfold qS C0 C1 C2 C3
  nlinarith [hy]

lemma qDelta_nonneg (y : ℝ) (hy : 0 ≤ y) : 0 ≤ qDelta y := by
  unfold qDelta
  rcases le_or_lt (qP y) 0 with h | h
  · have h3 : qP y ^ (3 : ℕ) ≤ 0 := Odd.pow_nonpos ⟨1, by norm_num⟩ h
    nlinarith [sq_nonneg (qS y)]
  · have h1 : qP y ≤ qP 0 := by unfold qP C3; nlinarith [hy]
    have h2 : qS 0 ≤ qS y := by unfold qS C3 C2 C1; nlinarith [hy]
    have h0 : (0 : ℝ) < qS 0 := qS_pos 0 le_rfl
    have h3 : qP y ^ (3 : ℕ) ≤ qP 0 ^ (3 : ℕ) := pow_le_pow_left₀ h.le h1 3
    have h4 : qS 0 ^ (2 : ℕ) ≤ qS y ^ (2 : ℕ) := pow_le_pow_left₀ h0.le h2 2
    have h5 : 4 * qP 0 ^ (3 : ℕ) ≤ qS 0 ^ (2 : ℕ) := by
      unfold qP qS C0 C1 C2 C3
      norm_num
    nlinarith [h3, h4, h5]

lemma bigT_pos (y : ℝ) (hy : 0 ≤ y) : 0 < bigT y :=
  add_pos_of_pos_of_nonneg (qS_pos y hy) (Real.sqrt_nonneg _)

lemma cbrt2_pos : (0 : ℝ) < cbrt2 := Real.rpow_pos_of_pos (by norm_num) _

lemma cbrt2_cube : cbrt2 ^ (3 : ℕ) = 2 := by
  unfold cbrt2
  rw [← Real.rpow_natCast ((2 : ℝ) ^ ((1 : ℝ) / 3)) 3,
    ← Real.rpow_mul (by norm_num : (0 : ℝ) ≤ 2)]
  norm_num

lemma uRoot_pos (y : ℝ) (hy : 0 ≤ y) : 0 < uRoot y :=
  Real.rpow_pos_of_pos (bigT_pos y hy) _

lemma uRoot_cube (y : ℝ) (hy : 0 ≤ y) : uRoot y ^ (3 : ℕ) = bigT y := by
  unfold uRoot
  rw [← Real.rpow_natCast (bigT y ^ ((1 : ℝ) / 3)) 3,
    ← Real.rpow_mul (bigT_pos y hy).le]
  norm_num

lemma sqrtDelta_sq (y : ℝ) (hy : 0 ≤ y) :
    Real.sqrt (qDelta y) ^ (2 : ℕ) = qDelta y :=
  Real.sq_sqrt (qDelta_nonneg y hy)

/-- Cardano: if `u` is a cube root of `S + D` with `D^2 = S^2 - 4P^3`, then
`c*P/u + u/c` (with `c` a cube root of 2) solves `W^3 = 3*P*W + S`. -/
lemma cardano_cubic (P S D u c : ℝ) (hu : u ≠ 0) (hc : c ≠ 0)
    (hc3 : c ^ (3 : ℕ) = 2) (hu3 : u ^ (3 : ℕ) = S + D)
    (hD : D ^ (2 : ℕ) = -4 * P ^ (3 : ℕ) + S ^ (2 : ℕ)) :
    (c * P / u + u / c) ^ (3 : ℕ) = 3 * P * (c * P / u + u / c) + S := by
  have hkey : 4 * P ^ (3 : ℕ) + u ^ (6 : ℕ) = 2 * S * u ^ (3 : ℕ) := by
    have h6 : u ^ (6 : ℕ) = (S + D) ^ (2 : ℕ) := by
      rw [show u ^ (6 : ℕ) = (u ^ (3 : ℕ)) ^ (2 : ℕ) by ring, hu3]
    rw [h6, hu3]
    linear_combination hD
  have e1 : (c * P / u + u / c) ^ (3 : ℕ)
      = (c ^ (2 : ℕ) * P + u ^ (2 : ℕ)) ^ (3 : ℕ) / (u ^ (3 : ℕ) * c ^ (3 : ℕ)) := by
    field_simp
    ring
  have e2 : 3 * P * (c * P / u + u / c) + S
      = (3 * P * (c ^ (2 : ℕ) * P + u ^ (2 : ℕ)) * u ^ (2 : ℕ) * c ^ (2 : ℕ)
          + S * u ^ (3 : ℕ) * c ^ (3 : ℕ)) / (u ^ (3 : ℕ) * c ^ (3 : ℕ)) := by
    field_simp
    ring
  rw [e1, e2]
  congr 1
  linear_combination ((c ^ (3 : ℕ) + 2) * P ^ (3 : ℕ) - S * u ^ (3 : ℕ)) * hc3
    + hkey

lemma W3_eq (y : ℝ) (hy : 0 ≤ y) :
    Wv y ^ (3 : ℕ) = 3 * qP y * Wv y + qS y := by
  unfold Wv
  exact cardano_cubic (qP y) (qS y) (Real.sqrt (qDelta y)) (uRoot y) cbrt2
    (uRoot_pos y hy).ne' cbrt2_pos.ne' cbrt2_cube
    (by rw [uRoot_cube y hy]; rfl)
    (by rw [sqrtDelta_sq y hy]; unfold qDelta; ring)

lemma W_pos (y : ℝ) (hy : 0 ≤ y) : 0 < Wv y := by
  rcases le_or_lt 0 (qP y) with hP | hP
  · have h1 : 0 ≤ cbrt2 * qP y / uRoot y :=
      div_nonneg (mul_nonneg cbrt2_pos.le hP) (uRoot_pos y hy).le
    have h2 : 0 < uRoot y / cbrt2 := div_pos (uRoot_pos y hy) cbrt2_pos
    unfold Wv
    linarith
  · by_contra h
    push_neg at h
    have h3 := W3_eq y hy
    have hS := qS_pos y hy
    have hPW : 0 ≤ qP y * Wv y := by
      simpa using mul_nonneg (neg_nonneg.mpr hP.le) (neg_nonneg.mpr h)
    have hW3 : Wv y ^ (3 : ℕ) ≤ 0 := Odd.pow_nonpos ⟨1, by norm_num⟩ h
    nlinarith [h3, hS, hPW, hW3]

/-- Lower bound for the root of the resolvent cubic: any positive `V` with
negative cubic value lies strictly below the positive root `W`. -/
lemma cubic_root_lb (P S W V : ℝ) (hS : 0 < S) (hW : 0 < W)
    (h3 : W ^ (3 : ℕ) = 3 * P * W + S) (hV : 0 < V)
    (hg : V ^ (3 : ℕ) - 3 * P * V - S < 0) : V < W := by
  by_contra h
  push_neg at h
  rcases le_or_lt (V ^ (2 : ℕ) + V * W + W ^ (2 : ℕ) - 3 * P) 0 with hq | hq
  · nlinarith [mul_nonneg hW.le (neg_nonneg.mpr hq),
      mul_pos (mul_pos hV hV) hW, mul_pos hV (mul_pos hW hW)]
  · nlinarith [mul_nonneg (sub_nonneg.mpr h) hq.le]

/-- Upper bound for the root of the resolvent cubic: any positive `V` with
positive cubic value lies strictly above the positive root `W`. -/
lemma cubic_root_ub (P S W V : ℝ) (hS : 0 < S) (hW : 0 < W)
    (h3 : W ^ (3 : ℕ) = 3 * P * W + S) (hV : 0 < V)
    (hg : 0 < V ^ (3 : ℕ) - 3 * P * V - S) : W < V := by
  by_contra h
  push_neg at h
  rcases le_or_lt (V ^ (2 : ℕ) + V * W + W ^ (2 : ℕ) - 3 * P) 0 with hq | hq
  · nlinarith [mul_nonneg hW.le (neg_nonneg.mpr hq),
      mul_pos (mul_pos hV hV) hW, mul_pos hV (mul_pos hW hW)]
  · nlinarith [mul_nonneg (sub_nonneg.mpr h) hq.le]

lemma tauC_pos : (0 : ℝ) < tauC := by unfold tauC C1 C2 C3; norm_num

lemma W_gt_tau (y : ℝ) (hy : 0 ≤ y) : tauC < Wv y := by
  apply cubic_root_lb (qP y) (qS y) (Wv y) tauC (qS_pos y hy) (W_pos y hy)
    (W3_eq y hy) tauC_pos
  have hconst : tauC ^ (3 : ℕ) - 3 * qP y * tauC - qS y
      = tauC ^ (3 : ℕ) - 3 * qP 0 * tauC - qS 0 := by
    unfold tauC qP qS C0 C1 C2 C3
    ring
  rw [hconst]
  unfold tauC qP qS C0 C1 C2 C3
  norm_num

lemma wTerm_eq (y : ℝ) (hy : 0 ≤ y) : wTerm y = Wv y / (3 * C3) := by
  have hu := (uRoot_pos y hy).ne'
  have hc := cbrt2_pos.ne'
  have h3 := C3_pos.ne'
  unfold wTerm Wv
  field_simp
  ring

lemma rad1_eq (y : ℝ) (hy : 0 ≤ y) : rad1 y = (Wv y - tauC) / (3 * C3) := by
  have h3 := C3_pos.ne'
  unfold rad1
  rw [wTerm_eq y hy]
  unfold tauC
  field_simp
  ring

lemma rad1_pos (y : ℝ) (hy : 0 ≤ y) : 0 < rad1 y := by
  rw [rad1_eq y hy]
  have h3 := C3_pos
  exact div_pos (sub_pos.mpr (W_gt_tau y hy)) (by linarith)

lemma sVal_pos (y : ℝ) (hy : 0 ≤ y) : 0 < sVal y :=
  Real.sqrt_pos.mpr (rad1_pos y hy)

lemma sVal_sq (y : ℝ) (hy : 0 ≤ y) : sVal y ^ (2 : ℕ) = rad1 y :=
  Real.sq_sqrt (rad1_pos y hy).le

lemma WvDef (y : ℝ) (hy : 0 ≤ y) :
    Wv y = 3 * C3 * sVal y ^ (2 : ℕ) + tauC := by
  have h3 := C3_pos.ne'
  rw [sVal_sq y hy, rad1_eq y hy]
  field_simp

lemma pQ_pos : (0 : ℝ) < pQ := by unfold pQ C1 C2 C3; norm_num

lemma qQ_pos : (0 : ℝ) < qQ := by unfold qQ C0 C1 C2 C3; norm_num

set_option maxHeartbeats 1000000 in
/-- The first outer radicand satisfies the resolvent-cubic relation of the
depressed quartic: `qQ² = s²(s² + pQ)² - 4 rQ(y) s²` where `s = sVal y`. -/
lemma resolvent (y : ℝ) (hy : 0 ≤ y) :
    qQ ^ (2 : ℕ)
      = sVal y ^ (2 : ℕ) * (sVal y ^ (2 : ℕ) + pQ) ^ (2 : ℕ)
          - 4 * rQ y * sVal y ^ (2 : ℕ) := by
  have h3 := W3_eq y hy
  rw [WvDef y hy] at h3
  have hid : (3 * C3 * sVal y ^ (2 : ℕ) + tauC) ^ (3 : ℕ)
        - 3 * qP y * (3 * C3 * sVal y ^ (2 : ℕ) + tauC) - qS y
      = 27 * C3 ^ (3 : ℕ) * (sVal y ^ (6 : ℕ) + 2 * pQ * sVal y ^ (4 : ℕ)
          + (pQ ^ (2 : ℕ) - 4 * rQ y) * sVal y ^ (2 : ℕ) - qQ ^ (2 : ℕ)) := by
    unfold tauC pQ qQ rQ qP qS C0 C1 C2 C3
    field_simp
    ring
  have h0 : 27 * C3 ^ (3 : ℕ) * (sVal y ^ (6 : ℕ) + 2 * pQ * sVal y ^ (4 : ℕ)
      + (pQ ^ (2 : ℕ) - 4 * rQ y) * sVal y ^ (2 : ℕ) - qQ ^ (2 : ℕ)) = 0 := by
    rw [← hid]
    linarith [h3]
  have h27 : (27 : ℝ) * C3 ^ (3 : ℕ) ≠ 0 := by unfold C3; norm_num
  have hz := (mul_eq_zero.mp h0).resolve_left h27
  linear_combination -hz

set_option maxHeartbeats 1000000 in
lemma rad2_eq (y : ℝ) (hy : 0 ≤ y) :
    rad2 y = -(sVal y ^ (2 : ℕ)) - 2 * pQ + 2 * qQ / sVal y := by
  have hs := (sVal_pos y hy).ne'
  have h3 := C3_pos.ne'
  have hu := (uRoot_pos y hy).ne'
  have hc := cbrt2_pos.ne'
  unfold rad2
  rw [wTerm_eq y hy, WvDef y hy]
  unfold tauC pQ qQ qF C0 C1 C2 C3
  field_simp
  ring

set_option maxHeartbeats 1000000 in
/-- For every target `y > 1000` the resolvent root stays below `4.04e-4`. -/
lemma W_lt_V1 (y : ℝ) (hy : 1000 < y) : Wv y < 4.04e-4 := by
  have hy0 : (0 : ℝ) ≤ y := by linarith
  refine cubic_root_ub (qP y) (qS y) (Wv y) _ (qS_pos y hy0) (W_pos y hy0)
    (W3_eq y hy0) (by norm_num) ?_
  unfold qP qS C0 C1 C2 C3
  nlinarith [hy]

set_option maxHeartbeats 2000000 in
/-- For every target `y > 1000` the second outer radicand is non-negative. -/
lemma rad2_nonneg (y : ℝ) (hy : 1000 < y) : 0 ≤ rad2 y := by
  have hy0 : (0 : ℝ) ≤ y := by linarith
  have hs := sVal_pos y hy0
  have hres := resolvent y hy0
  have hpQ := pQ_pos
  have hqQ := qQ_pos
  have hWd := WvDef y hy0
  have hB : 0 ≤ 3 * sVal y ^ (4 : ℕ) + 4 * pQ * sVal y ^ (2 : ℕ) - 16 * rQ y := by
    rcases le_or_lt 4740 y with h47 | h47
    · unfold pQ rQ C0 C1 C2 C3
      norm_num
      nlinarith [h47, sq_nonneg (sVal y), sq_nonneg (sVal y ^ (2 : ℕ))]
    · have hkey : 0 ≤ 3 * (Wv y - tauC) ^ (2 : ℕ)
          + 12 * C3 * pQ * (Wv y - tauC) - 144 * C3 ^ (2 : ℕ) * rQ y := by
        rcases le_or_lt y 2000 with h2 | h2
        · have hV : (3.5e-4 : ℝ) < Wv y := by
            refine cubic_root_lb (qP y) (qS y) (Wv y) _ (qS_pos y hy0)
              (W_pos y hy0) (W3_eq y hy0) (by norm_num) ?_
            unfold qP qS C0 C1 C2 C3
            nlinarith [h2]
          unfold tauC pQ rQ C0 C1 C2 C3
          norm_num
          nlinarith [hV, hy, sq_nonneg (Wv y - 3.5e-4)]
        · rcases le_or_lt y 3200 with h3 | h3
          · have hV : (3.3e-4 : ℝ) < Wv y := by
              refine cubic_root_lb (qP y) (qS y) (Wv y) _ (qS_pos y hy0)
                (W_pos y hy0) (W3_eq y hy0) (by norm_num) ?_
              unfold qP qS C0 C1 C2 C3
              nlinarith [h3]
            unfold tauC pQ rQ C0 C1 C2 C3
            norm_num
            nlinarith [hV, h2, sq_nonneg (Wv y - 3.3e-4)]
          · have hV : (3.0e-4 : ℝ) < Wv y := by
              refine cubic_root_lb (qP y) (qS y) (Wv y) _ (qS_pos y hy0)
                (W_pos y hy0) (W3_eq y hy0) (by norm_num) ?_
              unfold qP qS C0 C1 C2 C3
              nlinarith [h47]
            unfold tauC pQ rQ C0 C1 C2 C3
            norm_num
            nlinarith [hV, h3, sq_nonneg (Wv y - 3.0e-4)]
      have hsub : Wv y - tauC = 3 * C3 * sVal y ^ (2 : ℕ) := by linarith [hWd]
      rw [hsub] at hkey
      have heq : 3 * (3 * C3 * sVal y ^ (2 : ℕ)) ^ (2 : ℕ)
            + 12 * C3 * pQ * (3 * C3 * sVal y ^ (2 : ℕ))
            - 144 * C3 ^ (2 : ℕ) * rQ y
          = 9 * C3 ^ (2 : ℕ) * (3 * sVal y ^ (4 : ℕ)
              + 4 * pQ * sVal y ^ (2 : ℕ) - 16 * rQ y) := by
        ring
      rw [heq] at hkey
      have h9 : (0 : ℝ) < 9 * C3 ^ (2 : ℕ) := by
        have := C3_pos
        positivity
      have h0 : 9 * C3 ^ (2 : ℕ) * 0
          ≤ 9 * C3 ^ (2 : ℕ) * (3 * sVal y ^ (4 : ℕ)
              + 4 * pQ * sVal y ^ (2 : ℕ) - 16 * rQ y) := by
        linarith [hkey]
      exact le_of_mul_le_mul_left h0 h9
  have hsq : (sVal y * (sVal y ^ (2 : ℕ) + 2 * pQ)) ^ (2 : ℕ)
      ≤ (2 * qQ) ^ (2 : ℕ) := by
    nlinarith [mul_nonneg (sq_nonneg (sVal y)) hB, hres]
  have hprod : 0 ≤ sVal y * (sVal y ^ (2 : ℕ) + 2 * pQ) :=
    mul_nonneg hs.le (by nlinarith [sq_nonneg (sVal y)])
  have hle : sVal y * (sVal y ^ (2 : ℕ) + 2 * pQ) ≤ 2 * qQ := by
    nlinarith [hsq, hprod, hqQ]
  rw [rad2_eq y hy0]
  have hrw : -(sVal y ^ (2 : ℕ)) - 2 * pQ + 2 * qQ / sVal y
      = (2 * qQ - sVal y * (sVal y ^ (2 : ℕ) + 2 * pQ)) / sVal y := by
    field_simp
    ring
  rw [hrw]
  exact div_nonneg (by linarith) hs.le

set_option maxHeartbeats 1000000 in
/-- Ferrari assembly: if `s ≠ 0` satisfies the resolvent relation and
`t² = -s² - 2 pQ + 2 qQ / s`, then `-C2/(4C3) - s/2 + t/2` is an exact root
of `correct_high_lux · = y`. -/
lemma quartic_root (y s t : ℝ) (hs : s ≠ 0)
    (ht2 : t ^ (2 : ℕ) = -(s ^ (2 : ℕ)) - 2 * pQ + 2 * qQ / s)
    (hres2 : qQ ^ (2 : ℕ)
      = s ^ (2 : ℕ) * (s ^ (2 : ℕ) + pQ) ^ (2 : ℕ) - 4 * rQ y * s ^ (2 : ℕ)) :
    correct_high_lux (-C2 / (4 * C3) - s / 2 + t / 2) = y := by
  have hG : s * t ^ (2 : ℕ) + s ^ (3 : ℕ) + 2 * pQ * s - 2 * qQ = 0 := by
    rw [ht2]
    field_simp
    ring
  have hH : 4 * rQ y * s ^ (2 : ℕ)
      - s ^ (2 : ℕ) * (s ^ (2 : ℕ) + pQ) ^ (2 : ℕ) + qQ ^ (2 : ℕ) = 0 := by
    linear_combination hres2
  have hzero : 16 * s ^ (2 : ℕ) * (((t - s) / 2) ^ (4 : ℕ)
      + pQ * ((t - s) / 2) ^ (2 : ℕ) + qQ * ((t - s) / 2) + rQ y) = 0 := by
    linear_combination (t ^ (2 : ℕ) * s - 4 * t * s ^ (2 : ℕ) + 5 * s ^ (3 : ℕ)
      + 2 * pQ * s + 2 * qQ) * hG + 4 * hH
  have h16 : (16 : ℝ) * s ^ (2 : ℕ) ≠ 0 :=
    mul_ne_zero (by norm_num) (pow_ne_zero 2 hs)
  have hD : ((t - s) / 2) ^ (4 : ℕ) + pQ * ((t - s) / 2) ^ (2 : ℕ)
      + qQ * ((t - s) / 2) + rQ y = 0 :=
    (mul_eq_zero.mp hzero).resolve_left h16
  have hA : correct_high_lux (-C2 / (4 * C3) - s / 2 + t / 2) - y
      = C3 * (((t - s) / 2) ^ (4 : ℕ) + pQ * ((t - s) / 2) ^ (2 : ℕ)
          + qQ * ((t - s) / 2) + rQ y) := by
    unfold correct_high_lux pQ qQ rQ C0 C1 C2 C3
    field_simp
    ring
  rw [hD, mul_zero] at hA
  linarith [hA]

/-- The closed-form inverse is an exact right inverse of the forward
correction on target values above 1000 (in the exact-real model). -/
lemma inverse_eq_root (y : ℝ) (hy : 1000 < y) :
    correct_high_lux (inverse_high_lux_correctionR y) = y := by
  have hy0 : (0 : ℝ) ≤ y := by linarith
  have hs := sVal_pos y hy0
  have ht2 : Real.sqrt (rad2 y) ^ (2 : ℕ)
      = -(sVal y ^ (2 : ℕ)) - 2 * pQ + 2 * qQ / sVal y := by
    rw [Real.sq_sqrt (rad2_nonneg y hy)]
    exact rad2_eq y hy0
  have h := quartic_root y (sVal y) (Real.sqrt (rad2 y)) hs.ne' ht2
    (resolvent y hy0)
  simpa [inverse_high_lux_correctionR] using h

/-- On the valid domain `y > 1000` every radicand of the NaN-aware inverse is
non-negative, so it returns the finite value computed by the real-valued
reading. -/
lemma inverse_some (y : ℝ) (hy : 1000 < y) :
    inverse_high_lux_correction y = some (inverse_high_lux_correctionR y) := by
  have hy0 : (0 : ℝ) ≤ y := by linarith
  have h1 : f32sqrt (qDelta y) = some (Real.sqrt (qDelta y)) := by
    unfold f32sqrt
    rw [if_neg (not_lt.mpr (qDelta_nonneg y hy0))]
  have h2 : f32cbrt (qS y + Real.sqrt (qDelta y)) = some (uRoot y) := by
    have hT := bigT_pos y hy0
    unfold bigT at hT
    unfold f32cbrt
    rw [if_neg (not_lt.mpr hT.le)]
    unfold uRoot bigT
    rfl
  have h3 : f32sqrt (C2 ^ (2 : ℕ) / (4 * C3 ^ (2 : ℕ)) - 2 * C1 / (3 * C3)
      + (cbrt2 * qP y / (3 * C3 * uRoot y) + uRoot y / (3 * cbrt2 * C3)))
      = some (sVal y) := by
    have hrad : C2 ^ (2 : ℕ) / (4 * C3 ^ (2 : ℕ)) - 2 * C1 / (3 * C3)
        + (cbrt2 * qP y / (3 * C3 * uRoot y) + uRoot y / (3 * cbrt2 * C3))
        = rad1 y := rfl
    rw [hrad]
    unfold f32sqrt
    rw [if_neg (not_lt.mpr (rad1_pos y hy0).le)]
    rfl
  have h4 : f32sqrt (C2 ^ (2 : ℕ) / (2 * C3 ^ (2 : ℕ)) - 4 * C1 / (3 * C3)
      - (cbrt2 * qP y / (3 * C3 * uRoot y) + uRoot y / (3 * cbrt2 * C3))
      - qF / (4 * sVal y)) = some (Real.sqrt (rad2 y)) := by
    have hrad : C2 ^ (2 : ℕ) / (2 * C3 ^ (2 : ℕ)) - 4 * C1 / (3 * C3)
        - (cbrt2 * qP y / (3 * C3 * uRoot y) + uRoot y / (3 * cbrt2 * C3))
        - qF / (4 * sVal y) = rad2 y := rfl
    rw [hrad]
    unfold f32sqrt
    rw [if_neg (not_lt.mpr (rad2_nonneg y hy))]
  unfold inverse_high_lux_correction
  rw [h1, Option.some_bind, h2, Option.some_bind]
  show (f32sqrt _).bind _ = _
  rw [h3, Option.some_bind, h4, Option.some_bind]
  rfl

lemma s_le_13950 (y : ℝ) (hy : 1000 < y) : sVal y ≤ 13950 := by
  have hy0 : (0 : ℝ) ≤ y := by linarith
  have h1 : rad1 y ≤ (13950 : ℝ) ^ (2 : ℕ) := by
    rw [rad1_eq y hy0]
    have hW := W_lt_V1 y hy
    rw [div_le_iff₀ (by have := C3_pos; linarith : (0 : ℝ) < 3 * C3)]
    have hbound : (4.04e-4 : ℝ) - tauC ≤ (13950 : ℝ) ^ (2 : ℕ) * (3 * C3) := by
      unfold tauC C1 C2 C3
      norm_num
    linarith [hW]
  calc sVal y = Real.sqrt (rad1 y) := rfl
    _ ≤ Real.sqrt ((13950 : ℝ) ^ (2 : ℕ)) := Real.sqrt_le_sqrt h1
    _ = 13950 := by
        rw [Real.sqrt_sq (by norm_num : (0 : ℝ) ≤ 13950)]

set_option maxHeartbeats 1000000 in
/-- The root produced by the closed-form inverse is non-negative for every
target above 1000 (branch-selection correctness). -/
lemma inverseR_nonneg (y : ℝ) (hy : 1000 < y) :
    0 ≤ inverse_high_lux_correctionR y := by
  have hy0 : (0 : ℝ) ≤ y := by linarith
  have hs := sVal_pos y hy0
  have ht0 := Real.sqrt_nonneg (rad2 y)
  unfold inverse_high_lux_correctionR
  rcases le_or_lt (sVal y) (2 * (-C2 / (4 * C3))) with hcase | hcase
  · have halpha : sVal y / 2 ≤ -C2 / (4 * C3) := by linarith
    linarith [ht0]
  · have hs13950 := s_le_13950 y hy
    have ht2 : Real.sqrt (rad2 y) ^ (2 : ℕ) = rad2 y :=
      Real.sq_sqrt (rad2_nonneg y hy)
    have hrad2 := rad2_eq y hy0
    have hpsi : sVal y ^ (3 : ℕ) - 2 * (-C2 / (4 * C3)) * sVal y ^ (2 : ℕ)
        + (pQ + 2 * (-C2 / (4 * C3)) ^ (2 : ℕ)) * sVal y - qQ ≤ 0 := by
      have h135 : (0 : ℝ) ≤ 13950 - sVal y := by linarith
      unfold pQ qQ C0 C1 C2 C3
      norm_num
      nlinarith [h135, hs.le,
        mul_nonneg h135 (mul_nonneg hs.le hs.le),
        mul_nonneg h135 hs.le]
    have hts : (sVal y - 2 * (-C2 / (4 * C3))) ^ (2 : ℕ)
        ≤ Real.sqrt (rad2 y) ^ (2 : ℕ) := by
      rw [ht2, hrad2]
      have hdiff : -(sVal y ^ (2 : ℕ)) - 2 * pQ + 2 * qQ / sVal y
          - (sVal y - 2 * (-C2 / (4 * C3))) ^ (2 : ℕ)
          = (2 / sVal y) * (-(sVal y ^ (3 : ℕ)
              - 2 * (-C2 / (4 * C3)) * sVal y ^ (2 : ℕ)
              + (pQ + 2 * (-C2 / (4 * C3)) ^ (2 : ℕ)) * sVal y - qQ)) := by
        have hC3 := C3_pos.ne'
        field_simp
        ring
      have hnn : 0 ≤ (2 / sVal y) * (-(sVal y ^ (3 : ℕ)
          - 2 * (-C2 / (4 * C3)) * sVal y ^ (2 : ℕ)
          + (pQ + 2 * (-C2 / (4 * C3)) ^ (2 : ℕ)) * sVal y - qQ)) :=
        mul_nonneg (by positivity) (neg_nonneg.mpr hpsi)
      linarith [hdiff, hnn]
    have htge : sVal y - 2 * (-C2 / (4 * C3)) ≤ Real.sqrt (rad2 y) := by
      nlinarith [hts, ht0, hcase]
    linarith [htge]

lemma correct_hasDerivAt (x : ℝ) :
    HasDerivAt correct_high_lux
      (4 * x ^ (3 : ℕ) * C3 + 3 * x ^ (2 : ℕ) * C2 + (1 * x + x * 1) * C1
        + 1 * C0) x := by
  have h4 : HasDerivAt (fun v : ℝ => v ^ (4 : ℕ)) (4 * x ^ (3 : ℕ)) x := by
    simpa using hasDerivAt_pow 4 x
  have h3 : HasDerivAt (fun v : ℝ => v ^ (3 : ℕ)) (3 * x ^ (2 : ℕ)) x := by
    simpa using hasDerivAt_pow 3 x
  have hsq : HasDerivAt (fun v : ℝ => v * v) (1 * x + x * 1) x :=
    (hasDerivAt_id x).mul (hasDerivAt_id x)
  have hid : HasDerivAt (fun v : ℝ => v) 1 x := hasDerivAt_id x
  exact (((h4.mul_const C3).add (h3.mul_const C2)).add
    (hsq.mul_const C1)).add (hid.mul_const C0)

/-- The forward correction is strictly increasing on `[0, ∞)`. -/
lemma correct_strictMonoOn :
    StrictMonoOn correct_high_lux (Set.Ici (0 : ℝ)) := by
  apply strictMonoOn_of_deriv_pos (convex_Ici 0)
  · exact fun x _ => ((correct_hasDerivAt x).continuousAt).continuousWithinAt
  · intro x hx
    rw [interior_Ici, Set.mem_Ioi] at hx
    rw [(correct_hasDerivAt x).deriv]
    unfold C0 C1 C2 C3
    norm_num
    nlinarith [mul_nonneg hx.le (sq_nonneg (x - 7809)), hx.le, sq_nonneg x]

lemma inverseR_mono (y1 y2 : ℝ) (h1 : 1000 < y1) (h12 : y1 ≤ y2) :
    inverse_high_lux_correctionR y1 ≤ inverse_high_lux_correctionR y2 := by
  have h2 : 1000 < y2 := lt_of_lt_of_le h1 h12
  by_contra hcon
  push_neg at hcon
  have hlt := correct_strictMonoOn
    (Set.mem_Ici.mpr (inverseR_nonneg y2 h2))
    (Set.mem_Ici.mpr (inverseR_nonneg y1 h1)) hcon
  rw [inverse_eq_root y1 h1, inverse_eq_root y2 h2] at hlt
  linarith [hlt]

lemma inverseR_le_of_correct_ge (y B : ℝ) (hy : 1000 < y) (hB : 0 ≤ B)
    (h : y ≤ correct_high_lux B) : inverse_high_lux_correctionR y ≤ B := by
  by_contra hcon
  push_neg at hcon
  have hlt := correct_strictMonoOn (Set.mem_Ici.mpr hB)
    (Set.mem_Ici.mpr (inverseR_nonneg y hy)) hcon
  rw [inverse_eq_root y hy] at hlt
  linarith [hlt]

lemma conversion_factor_pos (it : IntegrationTime) (g : Gain) :
    0 < get_lux_raw_conversion_factor it g := by
  cases it <;> cases g <;> norm_num [get_lux_raw_conversion_factor]

lemma rf_to_u16_le (o : Option ℝ) : rf_to_u16 o ≤ 65535 := by
  cases o with
  | none => simp [rf_to_u16]
  | some v => simp [rf_to_u16]

lemma calc_plain_mono (it : IntegrationTime) (g : Gain) (x1 x2 : ℝ)
    (h12 : x1 ≤ x2)
    (h1 : ¬((g = Gain.OneQuarter ∨ g = Gain.OneEighth) ∧ 1000 < x1))
    (h2 : ¬((g = Gain.OneQuarter ∨ g = Gain.OneEighth) ∧ 1000 < x2)) :
    calculate_raw_threshold_value it g (some x1)
      ≤ calculate_raw_threshold_value it g (some x2) := by
  unfold calculate_raw_threshold_value
  rw [threshold_ratio_plain it g (some x1) (by simpa [rfGt1000] using h1),
    threshold_ratio_plain it g (some x2) (by simpa [rfGt1000] using h2)]
  have hf := conversion_factor_pos it g
  have hdiv : x1 / get_lux_raw_conversion_factor it g
      ≤ x2 / get_lux_raw_conversion_factor it g := by gcongr
  simp only [rfDiv, Option.some_bind, Option.map_some', Option.map_some, rf_to_u16]
  exact min_le_min (Nat.floor_mono hdiv) le_rfl

lemma calc_corrected_mono (it : IntegrationTime) (g : Gain) (x1 x2 : ℝ)
    (hg : g = Gain.OneQuarter ∨ g = Gain.OneEighth)
    (hx1 : 1000 < x1) (h12 : x1 ≤ x2) :
    calculate_raw_threshold_value it g (some x1)
      ≤ calculate_raw_threshold_value it g (some x2) := by
  have hx2 : 1000 < x2 := lt_of_lt_of_le hx1 h12
  unfold calculate_raw_threshold_value
  rw [threshold_ratio_corrected it g x1 hg hx1,
    threshold_ratio_corrected it g x2 hg hx2,
    inverse_some x1 hx1, inverse_some x2 hx2]
  have hf := conversion_factor_pos it g
  have hmono := inverseR_mono x1 x2 hx1 h12
  have hdiv : inverse_high_lux_correctionR x1 / get_lux_raw_conversion_factor it g
      ≤ inverse_high_lux_correctionR x2 / get_lux_raw_conversion_factor it g := by
    gcongr
  simp only [rfDiv, Option.some_bind, Option.map_some', Option.map_some, rf_to_u16]
  exact min_le_min (Nat.floor_mono hdiv) le_rfl

/-- C2: for every target lux `y > 1000` the NaN-aware inverse returns a
finite value, and applying the forward correction to it reproduces `y`
within relative tolerance `1e-3` (in the exact-real model it is exact). -/
theorem claim_C2 :
    ∀ y : ℝ, 1000 < y →
      ∃ x : ℝ, inverse_high_lux_correction y = some x
        ∧ |correct_high_lux x - y| ≤ 1e-3 * y := by
  intro y hy
  refine ⟨inverse_high_lux_correctionR y, inverse_some y hy, ?_⟩
  rw [inverse_eq_root y hy, sub_self, abs_zero]
  nlinarith [hy]

/-- Witness for C2 at the sample target 5000 lx. -/
theorem claim_C2_witness :
    ∃ x : ℝ, inverse_high_lux_correction 5000 = some x
      ∧ |correct_high_lux x - 5000| ≤ 1e-3 * 5000 :=
  claim_C2 5000 (by norm_num)

/-- C3 is falsified by the code: crossing the 1000-lux correction boundary
with a low-sensitivity gain makes the raw threshold drop.  At gain 1/4 and
800 ms, lux 1000 maps to raw 34722 but lux 1001 maps to at most 34618. -/
theorem claim_C3_counterexample :
    calculate_raw_threshold_value IntegrationTime._800ms Gain.OneQuarter
        (some 1001)
      < calculate_raw_threshold_value IntegrationTime._800ms Gain.OneQuarter
        (some 1000) := by
  have h1001 : (1000 : ℝ) < 1001 := by norm_num
  have hR : calculate_raw_threshold_value IntegrationTime._800ms
      Gain.OneQuarter (some 1000) = 34722 := by
    unfold calculate_raw_threshold_value
    rw [threshold_ratio_plain _ _ _
      (by rintro ⟨-, hgt⟩; simp [rfGt1000] at hgt)]
    simp only [rfDiv, Option.some_bind, Option.map_some', Option.map_some, rf_to_u16]
    have hfloor : ⌊(1000 : ℝ) / get_lux_raw_conversion_factor
        IntegrationTime._800ms Gain.OneQuarter⌋₊ = 34722 := by
      rw [Nat.floor_eq_iff
        (div_nonneg (by norm_num) (conversion_factor_pos _ _).le)]
      constructor <;> norm_num [get_lux_raw_conversion_factor]
    rw [hfloor]
    norm_num
  have hL : calculate_raw_threshold_value IntegrationTime._800ms
      Gain.OneQuarter (some 1001) ≤ 34618 := by
    unfold calculate_raw_threshold_value
    rw [threshold_ratio_corrected _ _ _ (Or.inl rfl) h1001,
      inverse_some 1001 h1001]
    have hx_le : inverse_high_lux_correctionR 1001 ≤ 997 := by
      apply inverseR_le_of_correct_ge 1001 997 h1001 (by norm_num)
      unfold correct_high_lux C0 C1 C2 C3
      norm_num
    have hx0 : 0 ≤ inverse_high_lux_correctionR 1001 :=
      inverseR_nonneg 1001 h1001
    simp only [rfDiv, Option.some_bind, Option.map_some', Option.map_some, rf_to_u16]
    have hlt : inverse_high_lux_correctionR 1001
        / get_lux_raw_conversion_factor IntegrationTime._800ms
            Gain.OneQuarter < 34619 := by
      rw [div_lt_iff₀ (conversion_factor_pos _ _)]
      have : (34619 : ℝ) * get_lux_raw_conversion_factor
          IntegrationTime._800ms Gain.OneQuarter = 34619 * (8.0 * 0.0036) := by
        norm_num [get_lux_raw_conversion_factor]
      rw [this]
      nlinarith [hx_le]
    have hfloor_lt : ⌊inverse_high_lux_correctionR 1001
        / get_lux_raw_conversion_factor IntegrationTime._800ms
            Gain.OneQuarter⌋₊ < 34619 := by
      rw [Nat.floor_lt (div_nonneg hx0 (conversion_factor_pos _ _).le)]
      exact_mod_cast hlt
    calc min ⌊inverse_high_lux_correctionR 1001
        / get_lux_raw_conversion_factor IntegrationTime._800ms
            Gain.OneQuarter⌋₊ 65535
        ≤ ⌊inverse_high_lux_correctionR 1001
            / get_lux_raw_conversion_factor IntegrationTime._800ms
                Gain.OneQuarter⌋₊ := min_le_left _ _
      _ ≤ 34618 := by omega
  rw [hR]
  exact lt_of_le_of_lt hL (by norm_num)

/-- C3 (amended): `calculate_raw_threshold_value` is non-decreasing in lux on
each side of the 1000-lux boundary — on lux ≤ 1000 for every gain, and on
lux > 1000 for every gain — and across the whole lux range for the gains Two
and One (which never correct); monotonicity across the boundary fails for
the low-sensitivity gains (see the counterexample). -/
theorem claim_C3 :
    (∀ (it : IntegrationTime) (g : Gain) (x1 x2 : ℝ), x1 ≤ x2 → x2 ≤ 1000 →
        calculate_raw_threshold_value it g (some x1)
          ≤ calculate_raw_threshold_value it g (some x2))
    ∧ (∀ (it : IntegrationTime) (g : Gain) (x1 x2 : ℝ), 1000 < x1 → x1 ≤ x2 →
        calculate_raw_threshold_value it g (some x1)
          ≤ calculate_raw_threshold_value it g (some x2))
    ∧ (∀ (it : IntegrationTime) (g : Gain) (x1 x2 : ℝ),
        (g = Gain.Two ∨ g = Gain.One) → x1 ≤ x2 →
        calculate_raw_threshold_value it g (some x1)
          ≤ calculate_raw_threshold_value it g (some x2)) := by
  refine ⟨?_, ?_, ?_⟩
  · intro it g x1 x2 h12 h2
    exact calc_plain_mono it g x1 x2 h12
      (by rintro ⟨-, hgt⟩; linarith)
      (by rintro ⟨-, hgt⟩; linarith)
  · intro it g x1 x2 hx1 h12
    cases g with
    | Two =>
        exact calc_plain_mono it Gain.Two x1 x2 h12
          (by rintro ⟨h | h, -⟩ <;> exact Gain.noConfusion h)
          (by rintro ⟨h | h, -⟩ <;> exact Gain.noConfusion h)
    | One =>
        exact calc_plain_mono it Gain.One x1 x2 h12
          (by rintro ⟨h | h, -⟩ <;> exact Gain.noConfusion h)
          (by rintro ⟨h | h, -⟩ <;> exact Gain.noConfusion h)
    | OneQuarter =>
        exact calc_corrected_mono it Gain.OneQuarter x1 x2 (Or.inl rfl) hx1 h12
    | OneEighth =>
        exact calc_corrected_mono it Gain.OneEighth x1 x2 (Or.inr rfl) hx1 h12
  · intro it g x1 x2 hg h12
    have hfalse : ∀ x : ℝ,
        ¬((g = Gain.OneQuarter ∨ g = Gain.OneEighth) ∧ 1000 < x) := by
      rcases hg with rfl | rfl <;>
        (rintro x ⟨h | h, -⟩ <;> exact Gain.noConfusion h)
    exact calc_plain_mono it g x1 x2 h12 (hfalse x1) (hfalse x2)

/-- Witness for the amended C3 at concrete inputs. -/
theorem claim_C3_witness :
    (calculate_raw_threshold_value IntegrationTime._800ms Gain.Two (some 500)
      ≤ calculate_raw_threshold_value IntegrationTime._800ms Gain.Two
          (some 800))
    ∧ (calculate_raw_threshold_value IntegrationTime._800ms Gain.OneQuarter
          (some 2000)
      ≤ calculate_raw_threshold_value IntegrationTime._800ms Gain.OneQuarter
          (some 3000))
    ∧ (calculate_raw_threshold_value IntegrationTime._800ms Gain.One
          (some 500)
      ≤ calculate_raw_threshold_value IntegrationTime._800ms Gain.One
          (some 2000)) :=
  ⟨claim_C3.1 _ _ _ _ (by norm_num) (by norm_num),
    claim_C3.2.1 _ _ _ _ (by norm_num) (by norm_num),
    claim_C3.2.2 _ _ _ _ (Or.inr rfl) (by norm_num)⟩

/-- C8: the threshold computation is total and always fits in 16 bits for
every gain, integration time and (finite or NaN) lux input; and when an
extreme target makes the inner square-root radicand negative, the NaN
propagates out of the inverse correction (no panic, no clamping). -/
theorem claim_C8 :
    (∀ (it : IntegrationTime) (g : Gain) (lux : Option ℝ),
        calculate_raw_threshold_value it g lux ≤ 65535)
    ∧ (∀ y : ℝ, qDelta y < 0 → inverse_high_lux_correction y = none) := by
  constructor
  · intro it g lux
    unfold calculate_raw_threshold_value
    exact rf_to_u16_le _
  · intro y h
    unfold inverse_high_lux_correction
    have hnone : f32sqrt (qDelta y) = none := by
      unfold f32sqrt
      rw [if_pos h]
    rw [hnone]
    rfl

/-- Witness for C8: a boundedness instance, and NaN propagation at the
extreme target lux `-1e10` where the inner radicand is negative. -/
theorem claim_C8_witness :
    calculate_raw_threshold_value IntegrationTime._800ms Gain.Two (some 1)
        ≤ 65535
    ∧ inverse_high_lux_correction (-1e10) = none :=
  ⟨claim_C8.1 _ _ _,
    claim_C8.2 (-1e10) (by unfold qDelta qP qS C0 C1 C2 C3; norm_num)⟩

end correction
